import Mathlib

set_option maxRecDepth 100000

/-
Verification of dumbdown.js, a rewriter that turns a restricted SQL dialect
into Salesforce Smart SQL bracket-token syntax.

The JavaScript source is embedded shallowly over `List Char`:
  * each regular expression used by the source is embedded as a scanner with
    the exact ECMAScript semantics of that one pattern: leftmost match
    position, lazy or greedy quantifier backtracking, lookahead, the `i`
    flag as ASCII case folding, and `.` excluding line terminators;
  * a thrown TypeError (indexing a null match result, or property access on
    an undefined field map entry) is modelled as `none`; `Option` results
    propagate exactly where a JavaScript exception would abort the call;
  * interpolation of the JavaScript value `undefined` into a template
    literal is modelled by the string "undefined" (`jsUndefS`), matching
    the coercion performed by template literals and property keys;
  * the external `fieldMaps` import (outside this repository, an immutable
    read-only resource per the specification) is passed explicitly as an
    association list parameter `fm : FieldMap` to every function needing it.
-/

/-- Characters, as lists, stand in for JavaScript strings. -/
abbrev Str := List Char

/-- Membership test for the ECMAScript whitespace class matched by the
regular expression class backslash-s, which the source uses in
`replace(/\s/g, "")`. -/
def isJsWs (c : Char) : Bool :=
  let n := c.toNat
  (0x9 ≤ n && n ≤ 0xd) || n = 0x20 || n = 0xa0 || n = 0x1680 ||
  (0x2000 ≤ n && n ≤ 0x200a) || n = 0x2028 || n = 0x2029 || n = 0x202f ||
  n = 0x205f || n = 0x3000 || n = 0xfeff

/-- Characters matched by the ECMAScript dot (any character except the four
line terminators, since none of the regexes of the source use the s flag). -/
def isDotChar (c : Char) : Bool :=
  !(c.toNat = 0xa || c.toNat = 0xd || c.toNat = 0x2028 || c.toNat = 0x2029)

/-- Boolean list-prefix test, written out so that inductions unfold cleanly. -/
def pfx : Str → Str → Bool
  | [], _ => true
  | _ :: _, [] => false
  | a :: xs, b :: ys => if a = b then pfx xs ys else false

/-- Case-insensitive prefix test: the ECMAScript `i` flag restricted to
ASCII, which is exact for every pattern of the source (all are ASCII). -/
def pfxCI : Str → Str → Bool
  | [], _ => true
  | _ :: _, [] => false
  | a :: xs, b :: ys => if a.toLower = b.toLower then pfxCI xs ys else false

/-- Substring containment, the semantics of `indexOf(needle) > -1`
(true for an empty needle, as in ECMAScript). -/
def containsSub (needle : Str) : Str → Bool
  | [] => pfx needle []
  | c :: cs => pfx needle (c :: cs) || containsSub needle cs

/-- Single-character containment, the semantics of `indexOf(c) > -1`. -/
def hasChar (c : Char) : Str → Bool
  | [] => false
  | d :: ds => if d = c then true else hasChar c ds

/-- The `replace(/\s/g, "")` step of splitFields in the source: remove every
ECMAScript whitespace character. -/
def stripWs (s : Str) : Str := s.filter (fun c => !isJsWs c)

/-- ECMAScript `split(sep)` for a single-character separator: splits at every
occurrence; the empty string yields one empty piece. -/
def splitOnChar (sep : Char) : Str → List Str
  | [] => [[]]
  | c :: cs =>
    if c = sep then [] :: splitOnChar sep cs
    else
      match splitOnChar sep cs with
      | [] => [[c]]
      | g :: gs => (c :: g) :: gs

/-- The whitespace-strip-then-comma-split step shared by every splitFields
call in the source (the List Splitter component of the specification). -/
def splitList (raw : Str) : List Str := splitOnChar ',' (stripWs raw)

/-- ECMAScript `split("AND")` as used on the WHERE clause body: splits at
every occurrence of the exact, upper-case character sequence A N D. -/
def splitAND : Str → List Str
  | [] => [[]]
  | 'A' :: 'N' :: 'D' :: rest => [] :: splitAND rest
  | c :: cs =>
    match splitAND cs with
    | [] => [[c]]
    | g :: gs => (c :: g) :: gs

/-- Occurrence test for the exact character sequence A N D. -/
def hasAND : Str → Bool
  | [] => false
  | 'A' :: 'N' :: 'D' :: _ => true
  | _ :: cs => hasAND cs

/-- Lazy quantifier body: the group `(.+?)` followed by a lookahead. Returns
the shortest non-empty run of dot characters after which `look` holds. -/
def lazyScan (look : Str → Bool) : Str → Option Str
  | [] => none
  | c :: cs =>
    if isDotChar c then
      if look cs then some [c]
      else
        match lazyScan look cs with
        | some g => some (c :: g)
        | none => none
    else none

/-- Greedy quantifier body: the group `(.+)` followed by a lookahead. Returns
the longest non-empty run of dot characters after which `look` holds. -/
def greedyScan (look : Str → Bool) : Str → Option Str
  | [] => none
  | c :: cs =>
    if isDotChar c then
      match greedyScan look cs with
      | some g => some (c :: g)
      | none => if look cs then some [c] else none
    else none

/-- Leftmost-match scan: at each position try the case-insensitive keyword
followed by the quantifier body; on failure the engine advances one
character, exactly as an unanchored ECMAScript match does. -/
def scanKw (kw : Str) (body : Str → Option Str) : Str → Option Str
  | [] => none
  | c :: cs =>
    if pfxCI kw (c :: cs) then
      match body ((c :: cs).drop kw.length) with
      | some g => some g
      | none => scanKw kw body cs
    else scanKw kw body cs

/-- Length of the qualifier keyword starting at this position, if any, in the
alternation order WHERE, GROUP BY, ORDER BY, LIMIT of the source regexes. -/
def qualStartLen (s : Str) : Option Nat :=
  if pfxCI "WHERE".toList s then some 5
  else if pfxCI "GROUP BY".toList s then some 8
  else if pfxCI "ORDER BY".toList s then some 8
  else if pfxCI "LIMIT".toList s then some 5
  else none

/-- The lookahead alternation WHERE, GROUP BY, ORDER BY, LIMIT,
end-of-input shared by the FROM regex and the qualifier regex. -/
def qualLook (s : Str) : Bool := (qualStartLen s).isSome || s.isEmpty

/-- Group 2 of the SELECT regex of the source: text between SELECT and the
FROM lookahead, matched lazily and case-insensitively. -/
def selectGroup : Str → Option Str :=
  scanKw "SELECT".toList (lazyScan (fun r => pfxCI "FROM".toList r))

/-- Group 2 of the FROM regex of the source: text between FROM and the
first qualifier keyword or end of input, matched lazily. -/
def fromGroup : Str → Option Str :=
  scanKw "FROM".toList (lazyScan qualLook)

/-- Group 1 of the WHERE regex of the source: everything after WHERE
(greedy dot-run on the same line). -/
def whereGroup : Str → Option Str :=
  scanKw "WHERE".toList (greedyScan (fun _ => true))

/-- Group 1 of the GROUP BY regex of the source. -/
def groupByGroup : Str → Option Str :=
  scanKw "GROUP BY".toList (greedyScan (fun _ => true))

/-- Group 1 of the ORDER BY regex of the source: greedy dot-run that must be
followed by DESC or ASC (case-insensitive lookahead). There is no match at
all when neither suffix occurs. -/
def orderByGroup : Str → Option Str :=
  scanKw "ORDER BY".toList
    (greedyScan (fun r => pfxCI "DESC".toList r || pfxCI "ASC".toList r))

/-- The external field-alias resource: table name to a mapping from generic
field name to vendor field name, as an association list. -/
abbrev FieldMap := List (Str × List (Str × Str))

/-- Coercion of the JavaScript value `undefined` to a string, as performed
by template-literal interpolation and property-key conversion. -/
def jsUndefS : Str := "undefined".toList

/-- Interpolate an optional vendor field the way a template literal does:
a missing value prints as the text undefined. -/
def jsUndef (o : Option Str) : Str := o.getD jsUndefS

/-- Vendor token for a resolved field. -/
def braceTok (t v : Str) : Str := '\x7b' :: (t ++ ':' :: (v ++ ['\x7d']))

/-- Vendor token for a table. -/
def braceTable (t : Str) : Str := '\x7b' :: (t ++ ['\x7d'])

/-- Property access `fieldMaps[t]`: `none` models the JavaScript value
`undefined` (any subsequent property access on it throws). -/
def lookupTable (fm : FieldMap) (t : Str) : Option (List (Str × Str)) :=
  match fm with
  | [] => none
  | p :: ps => if p.1 = t then some p.2 else lookupTable ps t

/-- Property access on one table map. -/
def lookupField (m : List (Str × Str)) (f : Str) : Option Str :=
  match m with
  | [] => none
  | p :: ps => if p.1 = f then some p.2 else lookupField ps f

/-- The `_.keys(fieldMaps[t])` call of the source: underscore returns the
empty key list when the argument is undefined. -/
def fieldKeys (fm : FieldMap) (t : Str) : List Str :=
  ((lookupTable fm t).getD []).map Prod.fst

/-- Embedding of dumbifyField: a dotted field resolves against its named
table, a bare field against the first table of the list. Property access on
an undefined table map throws (`none`); a missing field interpolates as the
text undefined inside the emitted token. The ECMAScript `split(".")` keeps
only pieces 0 and 1, and `tables[0]` of an empty array is the undefined key. -/
def dumbifyField (fm : FieldMap) (field : Str) (tables : List Str) : Option Str :=
  if hasChar '.' field then
    let parts := splitOnChar '.' field
    let tableName := parts.headD jsUndefS
    let fieldName := parts.getD 1 jsUndefS
    match lookupTable fm tableName with
    | none => none
    | some m => some (braceTok tableName (jsUndef (lookupField m fieldName)))
  else
    let t0 := tables.headD jsUndefS
    match lookupTable fm t0 with
    | none => none
    | some m => some (braceTok t0 (jsUndef (lookupField m field)))

/-- Embedding of commafy: prepend a comma separator unless the accumulator
is still empty. -/
def commafy (wholeWrapped wrapped : Str) : Str :=
  if wholeWrapped.isEmpty then wrapped else wholeWrapped ++ ", ".toList ++ wrapped

/-- Embedding of splitFields: extract one regex group from the query (the
extractor argument stands for the regex and group index of the call site,
`none` when the match is null and indexing it throws), then strip
whitespace and split on commas. -/
def splitFields (extract : Str → Option Str) (q : Str) : Option (List Str) :=
  (extract q).map splitList

/-- Embedding of wrapSelects: resolve every SELECT field (wildcard fields
pass through) against the FROM table list and rebuild the SELECT clause. -/
def wrapSelects (fm : FieldMap) (q : Str) : Option Str :=
  match splitFields selectGroup q with
  | none => none
  | some selectFields =>
    match splitFields fromGroup q with
    | none => none
    | some tableList =>
      match selectFields.foldlM (fun acc field =>
          if hasChar '*' field then some (commafy acc field)
          else (dumbifyField fm field tableList).map (commafy acc)) ([] : Str) with
      | none => none
      | some w => some ("SELECT ".toList ++ w ++ [' '])

/-- Embedding of wrapFrom: wrap every table of the FROM list literally. -/
def wrapFrom (q : Str) : Option Str :=
  match splitFields fromGroup q with
  | none => none
  | some tables =>
    some (" FROM ".toList ++
      tables.foldl (fun acc t => commafy acc (braceTable t)) ([] : Str) ++ [' '])

/-- Embedding of wrapSimpleList, shared by GROUP BY and ORDER BY: resolve
the extracted field list against the FROM table list of the full query. -/
def wrapSimpleList (extract : Str → Option Str) (fm : FieldMap) (clause q : Str) :
    Option Str :=
  match splitFields extract clause with
  | none => none
  | some fields =>
    match splitFields fromGroup q with
    | none => none
    | some tableList =>
      fields.foldlM (fun acc f => (dumbifyField fm f tableList).map (commafy acc))
        ([] : Str)

/-- First match of the regex consisting of one or more non-whitespace
characters: the first maximal non-whitespace run, none when there is none
(indexing the null match throws). -/
def firstWord (s : Str) : Option Str :=
  let r := (s.dropWhile isJsWs).takeWhile (fun c => !isJsWs c)
  if r.isEmpty then none else some r

/-- ECMAScript `replace(pat, repl)` with a string pattern: replace the first
occurrence only. -/
def replaceFirst (pat repl : Str) : Str → Str
  | [] => if pfx pat [] then repl else []
  | c :: cs =>
    if pfx pat (c :: cs) then repl ++ (c :: cs).drop pat.length
    else c :: replaceFirst pat repl cs

/-- Embedding of the per-predicate body of the wrapWhere loop. An equality
predicate is stripped of whitespace and split at every equals sign; the left
side resolves through dumbifyField, the right side is classified by the
chain of substring tests of the source: a quote keeps it verbatim, then a
table-name match resolves it, then a default-table field-name match emits a
token whose vendor part is looked up under the full right-hand text, else it
stays verbatim. A predicate without an equals sign has its first word
resolved and substituted in place. -/
def whereExpr (fm : FieldMap) (clause : Str) (tableList : List Str) : Option Str :=
  if hasChar '=' clause then
    let stripped := splitOnChar '=' (stripWs clause)
    let left := stripped.headD jsUndefS
    let right := stripped.getD 1 jsUndefS
    match dumbifyField fm left tableList with
    | none => none
    | some l =>
      if hasChar '\x27' right then some (l ++ " = ".toList ++ right)
      else if tableList.any (fun t => containsSub t right) then
        match dumbifyField fm right tableList with
        | none => none
        | some r => some (l ++ " = ".toList ++ r)
      else if (fieldKeys fm (tableList.headD jsUndefS)).any
          (fun f => containsSub f right) then
        match lookupTable fm (tableList.headD jsUndefS) with
        | none => none
        | some m =>
          some (l ++ " = ".toList ++
            braceTok (tableList.headD jsUndefS) (jsUndef (lookupField m right)))
      else some (l ++ " = ".toList ++ right)
  else
    match firstWord clause with
    | none => none
    | some word =>
      match dumbifyField fm word tableList with
      | none => none
      | some d => some (replaceFirst word d clause)

/-- Embedding of wrapWhere: take the clause body after WHERE, split it on
the exact text AND, rewrite every predicate, and join with the template of
the source (a separator of space AND space before, and one trailing space
after, every predicate except the first). -/
def wrapWhere (fm : FieldMap) (whereClause q : Str) : Option Str :=
  match whereGroup whereClause with
  | none => none
  | some body =>
    match splitFields fromGroup q with
    | none => none
    | some tableList =>
      match (splitAND body).foldlM (fun (p : Str × Nat) clause =>
          (whereExpr fm clause tableList).map (fun e =>
            (if p.2 = 0 then e else p.1 ++ " AND ".toList ++ e ++ [' '],
             p.2 + 1))) (([] : Str), 0) with
      | none => none
      | some p => some p.1

/-- Fuelled scan behind the global qualifier regex of the source: collect
every match (the keyword text as it appears, plus the lazily matched body)
left to right, resuming after each match. The fuel is the remaining length,
which every step strictly decreases. -/
def qualClausesF : Nat → Str → List Str
  | 0, _ => []
  | _ + 1, [] => []
  | n + 1, c :: cs =>
    match qualStartLen (c :: cs) with
    | some k =>
      match lazyScan qualLook ((c :: cs).drop k) with
      | some g =>
        ((c :: cs).take (k + g.length)) :: qualClausesF n (((c :: cs).drop k).drop g.length)
      | none => qualClausesF n cs
    | none => qualClausesF n cs

/-- All matches of the global qualifier regex over the query. -/
def qualClauses (s : Str) : List Str := qualClausesF s.length s

/-- Embedding of wrapQualifiers: dispatch each matched qualifier span on its
keyword; ORDER BY appends ASC or DESC when the lowercased span contains
that text anywhere; unknown spans (LIMIT included) pass through after one
space. -/
def wrapQualifiers (fm : FieldMap) (q : Str) : Option Str :=
  (qualClauses q).foldlM (fun acc clause =>
    if pfx "where".toList (clause.map Char.toLower) then
      (wrapWhere fm clause q).map (fun w => acc ++ " WHERE ".toList ++ w ++ [' '])
    else if pfx "group by".toList (clause.map Char.toLower) then
      (wrapSimpleList groupByGroup fm clause q).map
        (fun w => acc ++ " GROUP BY ".toList ++ w ++ [' '])
    else if pfx "order by".toList (clause.map Char.toLower) then
      (wrapSimpleList orderByGroup fm clause q).map (fun w =>
        let acc2 := acc ++ " ORDER BY ".toList ++ w ++ [' ']
        if containsSub "asc".toList (clause.map Char.toLower) then
          acc2 ++ " ASC".toList
        else if containsSub "desc".toList (clause.map Char.toLower) then
          acc2 ++ " DESC".toList
        else acc2)
    else some (acc ++ [' '] ++ clause)) ([] : Str)

/-- Embedding of the dumbdown entry point: the three portions are computed
in source order (each may throw) and concatenated. -/
def dumbdown (fm : FieldMap) (q : Str) : Option Str :=
  match wrapSelects fm q with
  | none => none
  | some s =>
    match wrapFrom q with
    | none => none
    | some f =>
      match wrapQualifiers fm q with
      | none => none
      | some w => some (s ++ f ++ w)

/-- Join pieces with a single separator character (used to state that the
comma split is a partition of its input). -/
def joinChar (sep : Char) : List Str → Str
  | [] => []
  | [g] => g
  | g :: h :: rest => g ++ sep :: joinChar sep (h :: rest)

/-- Join pieces with a comma-space separator (used to state the shape of the
rewritten FROM clause). -/
def joinComma : List Str → Str
  | [] => []
  | [g] => g
  | g :: h :: rest => g ++ ", ".toList ++ joinComma (h :: rest)

/-- Whitespace-token accumulator: collect maximal runs of non-whitespace
characters, the reversed current run carried in the second argument. -/
def wsTokensGo : Str → Str → List Str
  | [], w => if w.isEmpty then [] else [w.reverse]
  | c :: cs, w =>
    if isJsWs c then
      if w.isEmpty then wsTokensGo cs [] else w.reverse :: wsTokensGo cs []
    else wsTokensGo cs (c :: w)

/-- The whitespace-delimited tokens of a string, in order: the token content
and token order that the specification holds fixed while leaving whitespace
around clause boundaries implementation-defined. -/
def wsTokens (s : Str) : List Str := wsTokensGo s []

/-- Field map of the WHERE example of the specification: one table named
user with four generic fields. -/
def fmUser : FieldMap :=
  [("user".toList,
    [("id".toList, "Id".toList), ("full_name".toList, "FullName__c".toList),
     ("first_name".toList, "FirstName__c".toList),
     ("last_name".toList, "LastName__c".toList)])]

/-- The concrete scenario query of the specification (single line). -/
def qC1 : Str :=
  "SELECT id, full_name FROM user WHERE first_name = \x27John\x27 AND last_name = \x27Smith\x27 LIMIT 100".toList

/-- The string the embedded transform actually produces on qC1 (it has one
more space before LIMIT than the string printed in the specification). -/
def outC1 : Str :=
  "SELECT \x7buser:Id\x7d, \x7buser:FullName__c\x7d  FROM \x7buser\x7d  WHERE \x7buser:FirstName__c\x7d = \x27John\x27 AND \x7buser:LastName__c\x7d = \x27Smith\x27   LIMIT 100".toList

/-- The expected output string exactly as printed in the specification. -/
def expC1 : Str :=
  "SELECT \x7buser:Id\x7d, \x7buser:FullName__c\x7d  FROM \x7buser\x7d  WHERE \x7buser:FirstName__c\x7d = \x27John\x27 AND \x7buser:LastName__c\x7d = \x27Smith\x27  LIMIT 100".toList

/-- Field map of the GROUPS AND ORDERS example in the manual embedded in the
source file. -/
def fmMeetings : FieldMap :=
  [("meetings".toList,
    [("id".toList, "Id".toList), ("date".toList, "Date".toList),
     ("time".toList, "Event_Time__c".toList),
     ("subject".toList, "Subject__c".toList)])]

/-- The GROUPS AND ORDERS example query of the manual embedded in the source
file, flattened to one line: its ORDER BY clause carries no ASC or DESC. -/
def qC2 : Str :=
  "SELECT id, date, time, subject FROM meetings GROUP BY date ORDER BY time".toList

/-- Minimal field map with a user table that has only an id field. -/
def fmSmall : FieldMap := [("user".toList, [("id".toList, "Id".toList)])]

/-- Query selecting a field that is absent from fmSmall. -/
def qC3 : Str := "SELECT name FROM user".toList

/-- Output the embedded transform produces on qC3: a completed rewrite whose
SELECT token interpolates the text undefined. -/
def outC3 : Str :=
  "SELECT \x7buser:undefined\x7d  FROM \x7buser\x7d ".toList

/-- Field map of the JOIN example of the specification: two tables. -/
def fmJoin : FieldMap :=
  [("user".toList,
    [("id".toList, "Id".toList), ("name".toList, "Name".toList)]),
   ("profile".toList,
    [("address".toList, "Address__c".toList), ("user_id".toList, "UserId".toList)])]

/- Helper lemmas about the embedded string primitives. -/

lemma splitAND_AND (rest : Str) :
    splitAND ('A' :: 'N' :: 'D' :: rest) = [] :: splitAND rest := rfl

lemma pfx_AND_iff (s : Str) :
    pfx ['A', 'N', 'D'] s = true ↔ ∃ t, s = 'A' :: 'N' :: 'D' :: t := by
  rcases s with _ | ⟨a, _ | ⟨b, _ | ⟨c, t⟩⟩⟩
  all_goals simp [pfx]
  aesop

lemma splitAND_not (c : Char) (cs : Str) (h : pfx ['A', 'N', 'D'] (c :: cs) = false) :
    splitAND (c :: cs) =
      (match splitAND cs with
       | [] => [[c]]
       | g :: gs => (c :: g) :: gs) := by
  rw [splitAND.eq_def]
  split
  · rename_i heq
    exact absurd heq (by simp)
  · rename_i rest heq
    rw [heq] at h
    simp [pfx] at h
  · rename_i h1 h2 heq
    cases heq
    rfl

lemma hasAND_cons_eq (c : Char) (cs : Str) :
    hasAND (c :: cs) = (pfx ['A', 'N', 'D'] (c :: cs) || hasAND cs) := by
  rcases cs with _ | ⟨d, _ | ⟨e, t⟩⟩
  · simp [hasAND, pfx]
  · simp [hasAND, pfx]
  · by_cases hc : c = 'A'
    · by_cases hd : d = 'N'
      · by_cases he : e = 'D'
        · subst hc; subst hd; subst he
          simp [hasAND, pfx]
        · simp [hasAND, pfx, hc, hd, he]
          intro h
          exact absurd h.symm he
      · simp [hasAND, pfx, hc, hd]
        intro h _
        exact absurd h.symm hd
    · simp [hasAND, pfx, hc]
      intro h _ _
      exact absurd h.symm hc

lemma splitAND_of_not_has (s : Str) (h : hasAND s = false) : splitAND s = [s] := by
  induction s with
  | nil => rfl
  | cons c cs ih =>
    rw [hasAND_cons_eq] at h
    simp only [Bool.or_eq_false_iff] at h
    rw [splitAND_not c cs h.1, ih h.2]

lemma splitOnChar_ne_nil (sep : Char) (s : Str) : splitOnChar sep s ≠ [] := by
  induction s with
  | nil => simp [splitOnChar]
  | cons c cs ih =>
    simp only [splitOnChar]
    split
    · simp
    · cases hsc : splitOnChar sep cs with
      | nil => exact absurd hsc ih
      | cons g gs => simp [hsc]

lemma hasChar_cons (c d : Char) (ds : Str) :
    hasChar c (d :: ds) = ((d = c : Bool) || hasChar c ds) := by
  by_cases h : d = c <;> simp [hasChar, h]

lemma splitOnChar_of_not_has (sep : Char) (s : Str) (h : hasChar sep s = false) :
    splitOnChar sep s = [s] := by
  induction s with
  | nil => rfl
  | cons c cs ih =>
    rw [hasChar_cons] at h
    simp only [Bool.or_eq_false_iff, decide_eq_false_iff_not] at h
    rw [splitOnChar]
    rw [if_neg h.1, ih h.2]

lemma splitOnChar_append (sep : Char) (xs ys : Str) (h : hasChar sep xs = false) :
    splitOnChar sep (xs ++ sep :: ys) = xs :: splitOnChar sep ys := by
  induction xs with
  | nil => simp [splitOnChar]
  | cons c cs ih =>
    rw [hasChar_cons] at h
    simp only [Bool.or_eq_false_iff, decide_eq_false_iff_not] at h
    rw [List.cons_append, splitOnChar, if_neg h.1, ih h.2]

lemma hasChar_append_sep (sep : Char) (xs ys : Str) :
    hasChar sep (xs ++ sep :: ys) = true := by
  induction xs with
  | nil => simp [hasChar]
  | cons c cs ih =>
    rw [List.cons_append, hasChar_cons, ih]
    simp

lemma joinChar_splitOnChar (sep : Char) (s : Str) :
    joinChar sep (splitOnChar sep s) = s := by
  induction s with
  | nil => rfl
  | cons c cs ih =>
    rw [splitOnChar]
    split
    · rename_i hc
      cases hsc : splitOnChar sep cs with
      | nil => exact absurd hsc (splitOnChar_ne_nil sep cs)
      | cons g gs =>
        simp only [joinChar, List.nil_append]
        rw [← hsc, ih, hc]
    · cases hsc : splitOnChar sep cs with
      | nil => exact absurd hsc (splitOnChar_ne_nil sep cs)
      | cons g gs =>
        rw [hsc] at ih
        cases gs with
        | nil =>
          simp only [joinChar] at ih ⊢
          rw [ih]
        | cons g2 gs2 =>
          simp only [joinChar] at ih ⊢
          rw [List.cons_append, ih]

lemma mem_splitOnChar (sep : Char) (s g : Str) (c : Char)
    (hg : g ∈ splitOnChar sep s) (hc : c ∈ g) : c ∈ s ∧ c ≠ sep := by
  induction s generalizing g with
  | nil =>
    simp [splitOnChar] at hg
    subst hg
    exact absurd hc (List.not_mem_nil c)
  | cons d ds ih =>
    rw [splitOnChar] at hg
    by_cases hd : d = sep
    · rw [if_pos hd] at hg
      rcases List.mem_cons.mp hg with h | h
      · subst h
        exact absurd hc (List.not_mem_nil c)
      · have := ih g h hc
        exact ⟨List.mem_cons_of_mem d this.1, this.2⟩
    · rw [if_neg hd] at hg
      cases hsc : splitOnChar sep ds with
      | nil => exact absurd hsc (splitOnChar_ne_nil sep ds)
      | cons g0 gs =>
        rw [hsc] at hg
        rcases List.mem_cons.mp hg with h | h
        · subst h
          rcases List.mem_cons.mp hc with h2 | h2
          · subst h2
            exact ⟨List.mem_cons_self c ds, hd⟩
          · have hmem : g0 ∈ splitOnChar sep ds := by
              rw [hsc]; exact List.mem_cons_self g0 gs
            have := ih g0 hmem h2
            exact ⟨List.mem_cons_of_mem d this.1, this.2⟩
        · have hmem : g ∈ splitOnChar sep ds := by
            rw [hsc]; exact List.mem_cons_of_mem g0 h
          have := ih g hmem hc
          exact ⟨List.mem_cons_of_mem d this.1, this.2⟩

lemma foldl_commafy (l : List Str) (acc : Str) (h : acc ≠ []) :
    l.foldl commafy acc = joinComma (acc :: l) := by
  induction l generalizing acc with
  | nil => rfl
  | cons b bs ih =>
    rw [List.foldl_cons]
    have hacc : commafy acc b = acc ++ ", ".toList ++ b := by
      cases acc with
      | nil => exact absurd rfl h
      | cons a as => simp [commafy]
    rw [hacc, ih (acc ++ ", ".toList ++ b) (by simp)]
    cases bs with
    | nil => simp [joinComma]
    | cons b2 bs2 => simp [joinComma, List.append_assoc]

/-- Claim C1: on the concrete scenario query with the user FieldMap, the
transform returns the expected rewritten query; the embedded transform
yields outC1, whose whitespace-delimited token content and token order agree
exactly with the expected string expC1 of the specification (the two differ
only in whitespace width before LIMIT, which the claim leaves
implementation-defined). -/
theorem dumbdown_where_limit_example :
    dumbdown fmUser qC1 = some outC1 ∧ wsTokens outC1 = wsTokens expC1 :=
  ⟨by decide, by decide⟩

/-- Claim C2: contrary to the claim (and to the manual embedded in the
source file), an ORDER BY clause on a single field with no ASC or DESC
suffix does not produce a rewritten field list: the ORDER BY field-list
regex requires an ASC or DESC lookahead, its match is null, and indexing the
null match throws, so the transform fails on the GROUPS AND ORDERS example
of its own manual. -/
theorem dumbdown_orderBy_without_suffix_throws :
    dumbdown fmMeetings qC2 = none := by decide

/-- Claim C3 counterexample: with a field map whose user table lacks the
field name, the transform does not propagate a fatal lookup failure; it
returns a completed rewrite containing the placeholder token with the text
undefined in vendor-field position. -/
theorem dumbdown_missing_field_counterexample :
    dumbdown fmSmall qC3 = some outC3 ∧ dumbdown fmSmall qC3 ≠ none ∧
    containsSub jsUndefS outC3 = true := by decide

/-- Claim C3 as amended: resolution is fatal (no output) exactly when the
resolved table has no FieldMap entry; when the table exists but the generic
field name has no entry, the resolver emits a placeholder token whose vendor
part is the text undefined and does not fail. Both the bare and the dotted
forms are covered. -/
theorem dumbifyField_missing_entry (fm : FieldMap) (field : Str)
    (tables : List Str) (m : List (Str × Str)) :
    (hasChar '.' field = false →
      (lookupTable fm (tables.headD jsUndefS) = none →
        dumbifyField fm field tables = none) ∧
      (lookupTable fm (tables.headD jsUndefS) = some m →
        lookupField m field = none →
        dumbifyField fm field tables =
          some (braceTok (tables.headD jsUndefS) jsUndefS)))
    ∧ (hasChar '.' field = true →
      (lookupTable fm ((splitOnChar '.' field).headD jsUndefS) = none →
        dumbifyField fm field tables = none) ∧
      (lookupTable fm ((splitOnChar '.' field).headD jsUndefS) = some m →
        lookupField m ((splitOnChar '.' field).getD 1 jsUndefS) = none →
        dumbifyField fm field tables =
          some (braceTok ((splitOnChar '.' field).headD jsUndefS) jsUndefS))) := by
  constructor
  · intro hnd
    constructor
    · intro hlt
      simp only [List.headD_eq_head?] at hlt
      simp [dumbifyField, hnd, hlt]
    · intro hlt hlf
      simp only [List.headD_eq_head?] at hlt
      simp [dumbifyField, hnd, hlt, hlf, jsUndef]
  · intro hd
    constructor
    · intro hlt
      simp only [List.headD_eq_head?] at hlt
      simp [dumbifyField, hd, hlt]
    · intro hlt hlf
      simp only [List.headD_eq_head?] at hlt
      simp only [List.getD_eq_getElem?_getD] at hlf
      simp [dumbifyField, hd, hlt, hlf, jsUndef]

/-- Witness for the amended claim C3 at concrete inputs: a bare field absent
from an existing table map emits the undefined-token, and a dotted field
naming an absent table fails fatally. -/
theorem dumbifyField_missing_entry_witness :
    lookupTable fmSmall "user".toList = some [("id".toList, "Id".toList)] ∧
    lookupField [("id".toList, "Id".toList)] "name".toList = none ∧
    dumbifyField fmSmall "name".toList ["user".toList] =
      some (braceTok "user".toList jsUndefS) ∧
    dumbifyField fmSmall "missing.name".toList ["user".toList] = none :=
  ⟨by decide, by decide,
   ((dumbifyField_missing_entry fmSmall "name".toList ["user".toList]
      [("id".toList, "Id".toList)]).1 (by decide)).2 (by decide) (by decide),
   ((dumbifyField_missing_entry fmSmall "missing.name".toList ["user".toList]
      []).2 (by decide)).1 (by decide)⟩

/-- Claim C4: with a non-empty table list and the required FieldMap entries
present, a dotted token splits at the dot into table and field name and
resolves to the token of that table and its vendor field, while a dotless
token resolves against the first table of the FROM list. -/
theorem dumbifyField_resolution (fm : FieldMap) (t0 : Str) (ts : List Str)
    (tok tbl fld vf vf2 : Str) (m m2 : List (Str × Str)) :
    (tok = tbl ++ '.' :: fld → hasChar '.' tbl = false → hasChar '.' fld = false →
      lookupTable fm tbl = some m → lookupField m fld = some vf →
      dumbifyField fm tok (t0 :: ts) = some (braceTok tbl vf))
    ∧ (hasChar '.' tok = false →
      lookupTable fm t0 = some m2 → lookupField m2 tok = some vf2 →
      dumbifyField fm tok (t0 :: ts) = some (braceTok t0 vf2)) := by
  constructor
  · intro htok htbl hfld hlt hlf
    subst htok
    have hdot : hasChar '.' (tbl ++ '.' :: fld) = true := hasChar_append_sep '.' tbl fld
    simp [dumbifyField, hdot, splitOnChar_append '.' tbl fld htbl,
      splitOnChar_of_not_has '.' fld hfld, hlt, hlf, jsUndef]
  · intro hnd hlt hlf
    simp [dumbifyField, hnd, hlt, hlf, jsUndef]

/-- Witness for claim C4: the dotted token profile.address and the bare
token id of the JOIN example resolve as stated. -/
theorem dumbifyField_resolution_witness :
    ("profile.address".toList = "profile".toList ++ '.' :: "address".toList) ∧
    dumbifyField fmJoin "profile.address".toList ["user".toList] =
      some (braceTok "profile".toList "Address__c".toList) ∧
    dumbifyField fmJoin "id".toList ["user".toList] =
      some (braceTok "user".toList "Id".toList) :=
  ⟨by decide,
   (dumbifyField_resolution fmJoin "user".toList [] "profile.address".toList
      "profile".toList "address".toList "Address__c".toList "Id".toList
      [("address".toList, "Address__c".toList), ("user_id".toList, "UserId".toList)]
      [("id".toList, "Id".toList), ("name".toList, "Name".toList)]).1
      (by decide) (by decide) (by decide) (by decide) (by decide),
   (dumbifyField_resolution fmJoin "user".toList [] "id".toList
      "profile".toList "address".toList "Address__c".toList "Id".toList
      [("address".toList, "Address__c".toList), ("user_id".toList, "UserId".toList)]
      [("id".toList, "Id".toList), ("name".toList, "Name".toList)]).2
      (by decide) (by decide) (by decide)⟩

/-- Claim C5: the right-hand side of a WHERE equality predicate is
classified by substring containment in the fixed source order with the
first matching rule winning: a quote character keeps it verbatim; else a
table-name substring match resolves it through the field resolver; else a
substring match against a field name registered under the default table
emits a default-table token whose vendor part is looked up under the full
right-hand text; else it is kept verbatim. -/
theorem whereExpr_right_classification (fm : FieldMap) (tableList : List Str)
    (clause left right l : Str)
    (hc : hasChar '=' clause = true)
    (hl : (splitOnChar '=' (stripWs clause)).headD jsUndefS = left)
    (hr : (splitOnChar '=' (stripWs clause)).getD 1 jsUndefS = right)
    (hres : dumbifyField fm left tableList = some l) :
    (hasChar '\x27' right = true →
      whereExpr fm clause tableList = some (l ++ " = ".toList ++ right))
    ∧ (hasChar '\x27' right = false →
       tableList.any (fun t => containsSub t right) = true →
      whereExpr fm clause tableList =
        (dumbifyField fm right tableList).map (fun r => l ++ " = ".toList ++ r))
    ∧ (hasChar '\x27' right = false →
       tableList.any (fun t => containsSub t right) = false →
       (fieldKeys fm (tableList.headD jsUndefS)).any (fun f => containsSub f right) = true →
      whereExpr fm clause tableList =
        (lookupTable fm (tableList.headD jsUndefS)).map (fun mp =>
          l ++ " = ".toList ++
            braceTok (tableList.headD jsUndefS) (jsUndef (lookupField mp right))))
    ∧ (hasChar '\x27' right = false →
       tableList.any (fun t => containsSub t right) = false →
       (fieldKeys fm (tableList.headD jsUndefS)).any (fun f => containsSub f right) = false →
      whereExpr fm clause tableList = some (l ++ " = ".toList ++ right)) := by
  simp only [List.headD_eq_head?] at hl
  simp only [List.getD_eq_getElem?_getD] at hr
  refine ⟨fun hq => ?_, fun hq ht => ?_, fun hq ht hf => ?_, fun hq ht hf => ?_⟩
  · simp [whereExpr, hc, hl, hr, hres, hq]
  · cases hd : dumbifyField fm right tableList with
    | none => simp [whereExpr, hc, hl, hr, hres, hq, ht, hd]
    | some r => simp [whereExpr, hc, hl, hr, hres, hq, ht, hd]
  · simp only [List.headD_eq_head?] at hf ⊢
    cases hd : lookupTable fm (tableList.head?.getD jsUndefS) with
    | none => simp [whereExpr, hc, hl, hr, hres, hq, ht, hf, hd]
    | some mp => simp [whereExpr, hc, hl, hr, hres, hq, ht, hf, hd]
  · simp only [List.headD_eq_head?] at hf
    simp [whereExpr, hc, hl, hr, hres, hq, ht, hf]

/-- Witness for claim C5 at the quoted-literal branch: the predicate
comparing name with a quoted string keeps the literal verbatim. -/
theorem whereExpr_right_classification_witness :
    hasChar '\x27' "\x27Bob\x27".toList = true ∧
    whereExpr fmJoin " name = \x27Bob\x27 ".toList ["user".toList, "profile".toList] =
      some ("\x7buser:Name\x7d".toList ++ " = ".toList ++ "\x27Bob\x27".toList) :=
  ⟨by decide,
   (whereExpr_right_classification fmJoin ["user".toList, "profile".toList]
      " name = \x27Bob\x27 ".toList "name".toList "\x27Bob\x27".toList
      "\x7buser:Name\x7d".toList
      (by decide) (by decide) (by decide) (by decide)).1 (by decide)⟩

/-- Claim C6: the WHERE predicate split recognizes only the exact upper-case
text AND as delimiter; a clause with no such occurrence (lower-case and or
mixed-case And included) is returned whole, unsplit. -/
theorem splitAND_exact_case_only (s : Str) (h : hasAND s = false) :
    splitAND s = [s] :=
  splitAND_of_not_has s h

/-- Witness for claim C6: a WHERE body joined by lower-case and stays one
predicate. -/
theorem splitAND_exact_case_only_witness :
    hasAND " first_name = \x27John\x27 and last_name = \x27Smith\x27 ".toList = false ∧
    splitAND " first_name = \x27John\x27 and last_name = \x27Smith\x27 ".toList =
      [" first_name = \x27John\x27 and last_name = \x27Smith\x27 ".toList] :=
  ⟨by decide, splitAND_exact_case_only _ (by decide)⟩

/-- Claim C7 counterexample: the list splitter applied to the empty string
does not yield an empty sequence; it yields the one-element sequence holding
the empty string (ECMAScript split semantics). -/
theorem splitList_empty_counterexample :
    splitList ([] : Str) = [[]] ∧ splitList ([] : Str) ≠ [] := by decide

/-- Claim C7 as amended: the splitter strips every whitespace character and
splits on commas, so its pieces carry no whitespace and no comma and
comma-joining them restores the whitespace-stripped input; but the result is
never the empty sequence, and on empty input it is the one-element sequence
holding the empty string. -/
theorem splitList_spec (raw g : Str) (c : Char) :
    splitList ([] : Str) = [[]] ∧
    splitList raw ≠ [] ∧
    joinChar ',' (splitList raw) = stripWs raw ∧
    (g ∈ splitList raw → c ∈ g → isJsWs c = false ∧ c ≠ ',') := by
  refine ⟨rfl, splitOnChar_ne_nil ',' (stripWs raw),
    joinChar_splitOnChar ',' (stripWs raw), ?_⟩
  intro hg hc
  have hms := mem_splitOnChar ',' (stripWs raw) g c hg hc
  refine ⟨?_, hms.2⟩
  rcases List.mem_filter.mp hms.1 with ⟨_, hp⟩
  simpa using hp

/-- Witness for the amended claim C7 at a concrete input. -/
theorem splitList_spec_witness :
    ("ab".toList ∈ splitList " ab, c".toList) ∧ ('a' ∈ "ab".toList) ∧
    (isJsWs 'a' = false ∧ 'a' ≠ ',') :=
  ⟨by decide, by decide,
   (splitList_spec " ab, c".toList "ab".toList 'a').2.2.2 (by decide) (by decide)⟩

/-- Claim C8: the rewritten FROM clause preserves the extracted table order
exactly, wraps each table name literally in braces with no alias lookup,
joins the wrapped names with comma-space, and has the shape of the text FROM
between single spaces. -/
theorem wrapFrom_structure (q : Str) (ts : List Str)
    (h : splitFields fromGroup q = some ts) :
    wrapFrom q = some (" FROM ".toList ++ joinComma (ts.map braceTable) ++ [' ']) := by
  have hfold : ts.foldl (fun acc t => commafy acc (braceTable t)) ([] : Str) =
      joinComma (ts.map braceTable) := by
    cases ts with
    | nil => rfl
    | cons t ts2 =>
      simp only [List.map_cons, List.foldl_cons]
      have hx : commafy [] (braceTable t) = braceTable t := by simp [commafy]
      have hfc := foldl_commafy (ts2.map braceTable) (braceTable t)
        (by simp [braceTable])
      rw [List.foldl_map] at hfc
      rw [hx]
      exact hfc
  simp only [wrapFrom, h, hfold]

/-- Witness for claim C8: a two-table FROM clause. -/
theorem wrapFrom_structure_witness :
    splitFields fromGroup "SELECT a FROM user, profile WHERE id = 1".toList =
      some ["user".toList, "profile".toList] ∧
    wrapFrom "SELECT a FROM user, profile WHERE id = 1".toList =
      some (" FROM ".toList ++
        joinComma (["user".toList, "profile".toList].map braceTable) ++ [' ']) :=
  ⟨by decide, wrapFrom_structure _ _ (by decide)⟩

/-- Claim C9: the WHERE split is a plain substring split: an occurrence of
the exact upper-case text AND anywhere, quoted literals and identifiers
included, delimits two pieces, whatever stands around it. -/
theorem splitAND_delimits_everywhere (s1 s2 : Str)
    (h1 : hasAND s1 = false) (h2 : hasAND s2 = false) :
    splitAND (s1 ++ 'A' :: 'N' :: 'D' :: s2) = [s1, s2] := by
  induction s1 with
  | nil => rw [List.nil_append, splitAND_AND, splitAND_of_not_has s2 h2]
  | cons c cs ih =>
    rw [hasAND_cons_eq] at h1
    simp only [Bool.or_eq_false_iff] at h1
    have hp : pfx ['A', 'N', 'D'] (c :: (cs ++ 'A' :: 'N' :: 'D' :: s2)) = false := by
      by_contra hcon
      rw [Bool.not_eq_false] at hcon
      obtain ⟨t, ht⟩ := (pfx_AND_iff _).mp hcon
      rcases cs with _ | ⟨d, _ | ⟨e, cs2⟩⟩
      · simp only [List.nil_append, List.cons.injEq] at ht
        exact absurd ht.2.1 (by decide)
      · simp only [List.cons_append, List.nil_append, List.cons.injEq] at ht
        exact absurd ht.2.2.1 (by decide)
      · simp only [List.cons_append, List.cons.injEq] at ht
        obtain ⟨hc, hd, he, _⟩ := ht
        subst hc; subst hd; subst he
        simp [pfx] at h1
    rw [List.cons_append, splitAND_not _ _ hp, ih h1.2]

/-- Witness for claim C9: the quoted literal of value SANDY is cut at its
embedded AND, splitting inside the string literal. -/
theorem splitAND_delimits_everywhere_witness :
    hasAND " last = \x27S".toList = false ∧
    splitAND (" last = \x27S".toList ++ 'A' :: 'N' :: 'D' :: "Y\x27 ".toList) =
      [" last = \x27S".toList, "Y\x27 ".toList] :=
  ⟨by decide, splitAND_delimits_everywhere _ _ (by decide) (by decide)⟩

/-- Claim C10: the clause-boundary extraction is a raw substring lookahead
with no word-boundary check: a table named user_limits is truncated to the
text user_ before its embedded LIMIT, and a select field named age_from is
truncated to the text age_ before its embedded FROM. -/
theorem keyword_substring_truncation :
    splitFields fromGroup "SELECT a FROM user_limits".toList =
      some ["user_".toList] ∧
    splitFields selectGroup "SELECT age_from, b FROM t".toList =
      some ["age_".toList] := by decide
